import Mathlib

/-!
# Verification of the fulldisk space-distribution and fast-allocation engine

Shallow embedding of `src/fulldisk.py`:

* the decreasing-distribution scheduler loop of `run` (append/splinters modes),
* the platform allocation primitives `fastwrite_on_windows`,
  `adjust_file_size_windows`, `extend_file_size_linux`, `fastwrite_on_linux`,
* the target enumerator `walk_path`.

Python integers are modelled as `Int`; Python floor division `//` is
`Int.fdiv`.  A function that can raise is modelled as returning `Option`
(`none` = an exception escapes the call).
-/

namespace Fulldisk

/-! ## The distribution scheduler (`run`, append/splinters branches)

The two decreasing branches of `run` are identical in their budget
arithmetic (they differ only in how the file path written to is formed):

```
step_size = size // 2
walk_len = len(walk)
for target in walk:
    try:
        if walk_len != 1: write_func(target, step_size)
        else:            write_func(target, size)
    except Exception as e:
        tqdm.write(f"...{e}")
        walk_len -= 1
        continue
    size = size - step_size
    walk_len -= 1
    step_size = size // 2
```

The except handler's first statement is `tqdm.write(...)` — but the script
does `import tqdm` (the module), and the `tqdm` module has no top-level
`write` (it is a classmethod of the `tqdm.tqdm` class).  So the moment any
`write_func` call raises, the handler itself raises `AttributeError`,
which nothing catches: the run aborts at the first failed target, before
`walk_len -= 1`/`continue` and without touching `size` or `step_size`.

We embed the loop over the snapshotted target list as a recursion over the
list of per-target outcomes (`true` = `write_func` returned, `false` = it
raised).  Each iteration performed is recorded as an `AllocAttempt`; a
`false` outcome records its (failed) attempt and ends the run with the
completion flag `false`. -/

/-- The mutable loop variables of `run`: the remaining budget `size`, the
precomputed half `step_size`, and the live counter `walk_len`. -/
structure RunState where
  size : Int
  step_size : Int
  walk_len : Nat
  deriving Repr, DecidableEq

/-- One recorded loop iteration: the byte `amount` passed to `write_func`,
whether the call succeeded, and the value of `size` after the iteration. -/
structure AllocAttempt where
  amount : Int
  ok : Bool
  size_after : Int
  deriving Repr, DecidableEq

/-- The amount passed to `write_func` this iteration: `step_size` while
more than one target is counted live, all of `size` for the last one. -/
def attemptAmount (s : RunState) : Int :=
  if s.walk_len ≠ 1 then s.step_size else s.size

/-- The loop state after a successful iteration:
`size = size - step_size; walk_len -= 1; step_size = size // 2`. -/
def succStep (s : RunState) : RunState :=
  ⟨s.size - s.step_size, Int.fdiv (s.size - s.step_size) 2, s.walk_len - 1⟩

/-- The `run` loop over the outcome list.  `.1` is the trace of attempts
performed, `.2` whether the loop ran to completion.  On a failed
`write_func` call the except handler's own `tqdm.write(...)` raises
`AttributeError` (the `tqdm` module has no top-level `write`), so the run
aborts right there: the failed attempt is the last one, `size`,
`step_size` and `walk_len` are never updated, and no later target is
processed. -/
def runLoop (s : RunState) : List Bool → List AllocAttempt × Bool
  | [] => ([], true)
  | ok :: rest =>
    if ok then
      (⟨attemptAmount s, true, (succStep s).size⟩ ::
          (runLoop (succStep s) rest).1,
        (runLoop (succStep s) rest).2)
    else
      ([⟨attemptAmount s, false, s.size⟩], false)

/-- The attempts performed by the decreasing-mode branch of `run`:
`step_size = size // 2`, `walk_len = len(walk)`, then the loop.
`outcomes` has one entry per snapshotted target, in enumeration order
(entries after a `false` are never reached). -/
def runDecreasing (size : Int) (outcomes : List Bool) : List AllocAttempt :=
  (runLoop ⟨size, Int.fdiv size 2, outcomes.length⟩ outcomes).1

/-- Whether the decreasing-mode run processes its whole target list rather
than dying of the except handler's `AttributeError`. -/
def runCompletes (size : Int) (outcomes : List Bool) : Bool :=
  (runLoop ⟨size, Int.fdiv size 2, outcomes.length⟩ outcomes).2

/-- The successive values of the scheduler's `size` variable: the initial
budget followed by the value after each iteration.  Element `i` is the value
of `size` at the start of iteration `i` (0-based), element `i+1` the value
after it. -/
def sizeTrace (size : Int) (outcomes : List Bool) : List Int :=
  size :: (runDecreasing size outcomes).map AllocAttempt.size_after

/-- Sum of the byte amounts passed to the successful `write_func` calls. -/
def allocatedSum (trace : List AllocAttempt) : Int :=
  ((trace.filter AllocAttempt.ok).map AllocAttempt.amount).sum

/-- Chunk sizes exactly as the spec words them (spec §4.3/§8), for a target
list of length `n`: while more than one target is left the chunk is
`remaining // 2` and `remaining` shrinks by it; the last target absorbs all
of `remaining`. -/
def specChunks (budget : Int) : Nat → List Int
  | 0 => []
  | 1 => [budget]
  | n + 2 =>
    Int.fdiv budget 2 :: specChunks (budget - Int.fdiv budget 2) (n + 1)

/-! ## The platform allocation primitives

Each primitive is modelled as a function from its integer inputs (and a
`Bool` recording the outcome of the one OS capability it probes) to
`Option Int`: `some n` means the call returned normally leaving a file of
apparent size `n` bytes, `none` means an exception escaped the call.

File-system facts used by the models:

* opening with mode `'wb'` truncates the file to length 0; mode `'r+b'`
  keeps the current contents;
* `f.seek(off)` with `off < 0` raises `OSError`; writing one byte at
  offset `off` leaves the file length at `max current (off + 1)`;
* `f.truncate(n)` sets the length to exactly `n`;
* `os.posix_fallocate(fd, 0, n)` allocates the range `[0, n)`, growing the
  file to length `n` if it was shorter, and raises `OSError` (`EINVAL`)
  for `n <= 0`;
* `SetFilePointerEx` to a negative position fails; `SetEndOfFile` sets the
  length to the pointer position; `SetFileValidData` never changes the
  length, it only marks data valid. -/

/-- `fastwrite_on_windows(file_path, size)`: open `'wb'` (length 0), seek to
`size - 1`, write one zero byte, then call `SetFileValidData`; if that fails
(`svd_ok = false`), fall back to `f.truncate(size)`. -/
def fastwrite_on_windows (size : Int) (svd_ok : Bool) : Option Int :=
  let len0 : Int := 0
  if size - 1 < 0 then none
  else
    let len1 := max len0 (size - 1 + 1)
    if svd_ok then some len1 else some size

/-- `adjust_file_size_windows(file_path, add_size)`: open `'r+b'` on the
existing file of size `current_size`, compute
`new_size = current_size + add_size`, move the file pointer to `new_size`
(fails when negative), `SetEndOfFile` there, then call `SetFileValidData`
whose result the code never checks (`svd_ok` is ignored). -/
def adjust_file_size_windows (current_size add_size : Int) (svd_ok : Bool) :
    Option Int :=
  let new_size := current_size + add_size
  if new_size < 0 then none
  else
    let _ := svd_ok
    some new_size

/-- `extend_file_size_linux(file_path, add_size)`: read
`current_size = os.path.getsize(file_path)`, set
`new_size = current_size + add_size`, open `'r+b'` and try
`os.posix_fallocate(fd, 0, new_size)`; on `AttributeError`
(`falloc_supported = false`) fall back to seeking to `new_size - 1` and
writing one zero byte. -/
def extend_file_size_linux (current_size add_size : Int)
    (falloc_supported : Bool) : Option Int :=
  let new_size := current_size + add_size
  if falloc_supported then
    if new_size ≤ 0 then none
    else some (max current_size new_size)
  else
    if new_size - 1 < 0 then none
    else some (max current_size (new_size - 1 + 1))

/-- `fastwrite_on_linux(file_path, size)`: open `'wb'` (length 0) and call
`os.posix_fallocate(fd, 0, size)` directly — there is no `try`/`except`
around it, so an unsupported primitive (`AttributeError`) propagates. -/
def fastwrite_on_linux (size : Int) (falloc_supported : Bool) : Option Int :=
  let len0 : Int := 0
  if falloc_supported then
    if size ≤ 0 then none
    else some (max len0 size)
  else none

/-- `extend_file_size_linux` as the spec words the sparse-extend strategy
(§4.1), for comparison: compute `newSize = currentSize + byteSize`, request
allocation of `[0, newSize)`; if the primitive is unsupported, seek to
`newSize - 1` and write a single zero byte.  Per the claim, this fallback
is asserted for the create-new-file path as well. -/
def sparse_extend_spec (current_size add_size : Int)
    (falloc_supported : Bool) : Option Int :=
  extend_file_size_linux current_size add_size falloc_supported

/-! ## The target enumerator (`walk_path`)

The filesystem below the root is modelled as a finite tree of directories;
each directory carries its write-accessibility (`os.access(-, W_OK)`), the
regular files directly inside it (with their own writability bit), and its
subdirectories.  `os.walk(path)` is modelled by `osWalk`: a depth-first
pre-order enumeration of the directories, each paired with its file list,
which is what the default top-down `os.walk` yields. -/

/-- A directory entry in the modelled tree. -/
inductive FSDir where
  | mk (writable : Bool) (files : List (String × Bool)) (subdirs : List FSDir)

/-- Write-accessibility of the directory itself. -/
def FSDir.writable : FSDir → Bool
  | .mk w _ _ => w

/-- The regular files directly inside the directory: name and writability. -/
def FSDir.files : FSDir → List (String × Bool)
  | .mk _ fs _ => fs

/-- The immediate subdirectories. -/
def FSDir.subdirs : FSDir → List FSDir
  | .mk _ _ ds => ds

mutual

/-- `os.walk(path)`, top-down: the directory itself first, then each
subtree in order (depth-first, pre-order). -/
def osWalk : FSDir → List FSDir
  | .mk w fs ds => .mk w fs ds :: osWalkList ds

/-- `osWalk` mapped over a list of sibling subtrees, concatenated. -/
def osWalkList : List FSDir → List FSDir
  | [] => []
  | d :: ds => osWalk d ++ osWalkList ds

end

/-- `walk_path(path)` (directories mode, `is_append=False`): walk the tree
and keep exactly the directories the process may write to. -/
def walk_path_dirs (root : FSDir) : List FSDir :=
  (osWalk root).filter FSDir.writable

/-- `walk_path(path, is_append=True)` (files mode): for every walked
directory, in walk order, keep its writable files. -/
def walk_path_files (root : FSDir) : List (String × Bool) :=
  ((osWalk root).map (fun d => d.files.filter (fun f => f.2))).flatten

/-- `d` is reachable from `r` by following subdirectory edges. -/
inductive Reachable : FSDir → FSDir → Prop
  | refl (d : FSDir) : Reachable d d
  | step {r c d : FSDir} (hc : c ∈ r.subdirs) (h : Reachable c d) :
      Reachable r d

/-! ## Enumerator lemmas -/

theorem osWalkList_mem (ds : List FSDir) (d : FSDir) :
    d ∈ osWalkList ds ↔ ∃ c ∈ ds, d ∈ osWalk c := by
  induction ds with
  | nil => simp [osWalkList]
  | cons c cs ih =>
    simp only [osWalkList, List.mem_append, ih, List.mem_cons]
    constructor
    · rintro (h | ⟨x, hx, hd⟩)
      · exact ⟨c, Or.inl rfl, h⟩
      · exact ⟨x, Or.inr hx, hd⟩
    · rintro ⟨x, hx | hx, hd⟩
      · exact Or.inl (hx ▸ hd)
      · exact Or.inr ⟨x, hx, hd⟩

theorem self_mem_osWalk (r : FSDir) : r ∈ osWalk r := by
  cases r with
  | mk w fs ds => simp [osWalk]

theorem mem_osWalk_of_reachable {r d : FSDir} (h : Reachable r d) :
    d ∈ osWalk r := by
  induction h with
  | refl d => exact self_mem_osWalk d
  | @step r c d hc _ ih =>
    cases r with
    | mk w fs ds =>
      rw [osWalk]
      refine List.mem_cons.mpr (Or.inr ?_)
      exact (osWalkList_mem ds d).mpr
        ⟨c, by simpa [FSDir.subdirs] using hc, ih⟩

theorem reachable_of_mem_osWalk (r : FSDir) :
    ∀ d, d ∈ osWalk r → Reachable r d := by
  refine osWalk.induct
    (fun r => ∀ d, d ∈ osWalk r → Reachable r d)
    (fun ds => ∀ d, d ∈ osWalkList ds → ∃ c ∈ ds, Reachable c d)
    ?_ ?_ ?_ r
  · intro w fs ds ih2 d hd
    rw [osWalk] at hd
    rcases List.mem_cons.mp hd with h0 | h0
    · exact h0 ▸ Reachable.refl _
    · obtain ⟨c, hc, hr⟩ := ih2 d h0
      exact Reachable.step (by simpa [FSDir.subdirs] using hc) hr
  · intro d hd
    simp [osWalkList] at hd
  · intro c cs ih1 ih2 d hd
    rw [osWalkList] at hd
    rcases List.mem_append.mp hd with h0 | h0
    · exact ⟨c, List.mem_cons_self c cs, ih1 d h0⟩
    · obtain ⟨x, hx, hr⟩ := ih2 d h0
      exact ⟨x, List.mem_cons_of_mem c hx, hr⟩

theorem mem_osWalk_iff (r d : FSDir) : d ∈ osWalk r ↔ Reachable r d :=
  ⟨reachable_of_mem_osWalk r d, mem_osWalk_of_reachable⟩

/-! ## Scheduler lemmas -/

theorem runLoop_nil (s : RunState) : runLoop s [] = ([], true) := rfl

theorem runLoop_cons_true (s : RunState) (rest : List Bool) :
    runLoop s (true :: rest) =
      (⟨attemptAmount s, true, (succStep s).size⟩ ::
          (runLoop (succStep s) rest).1,
        (runLoop (succStep s) rest).2) := rfl

theorem runLoop_cons_false (s : RunState) (rest : List Bool) :
    runLoop s (false :: rest) =
      ([⟨attemptAmount s, false, s.size⟩], false) := rfl

theorem succStep_size (s : RunState) :
    (succStep s).size = s.size - s.step_size := rfl

theorem allocatedSum_nil : allocatedSum [] = 0 := rfl

theorem allocatedSum_cons (a : AllocAttempt) (l : List AllocAttempt) :
    allocatedSum (a :: l) =
      (if a.ok then a.amount else 0) + allocatedSum l := by
  by_cases h : a.ok = true <;>
    simp [allocatedSum, List.filter_cons, h]

theorem fdiv_two_nonneg {a : Int} (h : 0 ≤ a) : 0 ≤ Int.fdiv a 2 := by
  rw [Int.fdiv_eq_ediv _ (by norm_num)]
  exact Int.ediv_nonneg h (by norm_num)

theorem fdiv_two_le_self {a : Int} (h : 0 ≤ a) : Int.fdiv a 2 ≤ a := by
  rw [Int.fdiv_eq_ediv _ (by norm_num)]
  exact Int.ediv_le_self 2 h

/-- Loop invariant for the budget: starting from a state with a nonnegative
`size` and with `step_size = size // 2` (as the loop maintains), the values
taken by `size` form a non-increasing chain of nonnegative integers. -/
theorem runLoop_size_chain (outs : List Bool) :
    ∀ s : RunState, 0 ≤ s.size → s.step_size = Int.fdiv s.size 2 →
      List.Chain' (fun a b => b ≤ a)
          (s.size :: (runLoop s outs).1.map AllocAttempt.size_after) ∧
        ∀ x ∈ s.size :: (runLoop s outs).1.map AllocAttempt.size_after,
          0 ≤ x := by
  induction outs with
  | nil =>
    intro s hs _
    simp [runLoop_nil, hs]
  | cons ok rest ih =>
    intro s hs hstep
    have hd2 : 0 ≤ Int.fdiv s.size 2 := fdiv_two_nonneg hs
    have hle : Int.fdiv s.size 2 ≤ s.size := fdiv_two_le_self hs
    cases ok with
    | false =>
      rw [runLoop_cons_false]
      constructor
      · simp
      · intro x hx
        simp at hx
        subst hx
        exact hs
    | true =>
      have hpos : 0 ≤ (succStep s).size := by
        rw [succStep_size, hstep]; omega
      have h' := ih (succStep s) hpos rfl
      constructor
      · rw [runLoop_cons_true, List.map_cons]
        refine List.chain'_cons.mpr ⟨?_, h'.1⟩
        show (succStep s).size ≤ s.size
        rw [succStep_size, hstep]
        omega
      · intro x hx
        rw [runLoop_cons_true, List.map_cons] at hx
        rcases List.mem_cons.mp hx with h0 | h0
        · exact h0 ▸ hs
        · exact h'.2 x h0

/-- Loop invariant for C3: a failed iteration leaves `size` where it was
(in the source the exception escapes `write_func`, and then the handler
itself raises, before `size = size - step_size` is ever reached). -/
theorem runLoop_failed_keeps_size (outs : List Bool) :
    ∀ (s : RunState) (i : Nat), i < (runLoop s outs).1.length →
      ((runLoop s outs).1.getD i ⟨0, true, 0⟩).ok = false →
        (s.size ::
            (runLoop s outs).1.map AllocAttempt.size_after).getD (i + 1) 0
          = (s.size ::
              (runLoop s outs).1.map AllocAttempt.size_after).getD i 0 := by
  induction outs with
  | nil => intro s i h; rw [runLoop_nil] at h; simp at h
  | cons ok rest ih =>
    intro s i h hf
    cases ok with
    | false =>
      rw [runLoop_cons_false] at h ⊢
      have hi : i = 0 := by simp at h; omega
      subst hi
      simp
    | true =>
      rw [runLoop_cons_true] at h hf ⊢
      cases i with
      | zero => simp at hf
      | succ j =>
        have hj : j < (runLoop (succStep s) rest).1.length := by
          simpa using h
        have hf' : ((runLoop (succStep s) rest).1.getD j ⟨0, true, 0⟩).ok
            = false := by
          simpa using hf
        have h' := ih (succStep s) j hj hf'
        simpa using h'

/-- Loop invariant for C4: when the loop counter matches the number of
outcomes and the loop runs to completion (which requires every attempt to
succeed), the successful amounts sum to the whole starting budget. -/
theorem runLoop_completed_sum (outs : List Bool) :
    ∀ s : RunState, s.walk_len = outs.length → outs ≠ [] →
      (runLoop s outs).2 = true →
        allocatedSum (runLoop s outs).1 = s.size := by
  induction outs with
  | nil => intro s _ h; exact absurd rfl h
  | cons ok rest ih =>
    intro s hlen _ hc
    cases ok with
    | false =>
      rw [runLoop_cons_false] at hc
      simp at hc
    | true =>
      rw [runLoop_cons_true] at hc ⊢
      cases rest with
      | nil =>
        have h1 : s.walk_len = 1 := by simpa using hlen
        simp [runLoop_nil, allocatedSum_cons, allocatedSum_nil,
          attemptAmount, h1]
      | cons r rs =>
        have hne : s.walk_len ≠ 1 := by
          rw [hlen]; simp
        have hlen' : (succStep s).walk_len = (r :: rs).length := by
          simp [succStep, hlen]
        have h' := ih (succStep s) hlen' (by simp) (by simpa using hc)
        rw [allocatedSum_cons]
        simp only [if_pos rfl]
        rw [h', succStep_size]
        simp [attemptAmount, hne]

/-- Loop refinement for C2: with every allocation succeeding and the loop
counter matching, the attempted amounts are exactly the spec's chunk
sequence. -/
theorem runLoop_chunks_spec :
    ∀ (n : Nat) (size : Int),
      ((runLoop ⟨size, Int.fdiv size 2, n + 1⟩
            (List.replicate (n + 1) true)).1).map AllocAttempt.amount
        = specChunks size (n + 1)
  | 0, size => by
    simp [runLoop_cons_true, runLoop_nil, attemptAmount, specChunks]
  | n + 1, size => by
    have ih := runLoop_chunks_spec n (size - Int.fdiv size 2)
    rw [List.replicate_succ, runLoop_cons_true]
    have hs : succStep ⟨size, Int.fdiv size 2, n + 2⟩ =
        (⟨size - Int.fdiv size 2, Int.fdiv (size - Int.fdiv size 2) 2,
          n + 1⟩ : RunState) := rfl
    have ha : attemptAmount ⟨size, Int.fdiv size 2, n + 2⟩
        = Int.fdiv size 2 := by
      simp [attemptAmount]
    rw [List.map_cons, hs, ih]
    simp only [ha]
    rfl

/-! ## Claim theorems -/

/-- C1, counterexample.  The claim's concrete scenario (`totalBudget = 1000`,
`n = 3`, target 1 fails) is false on the code: after the failed first
iteration `size` is still `1000` (the `continue` skips the decrement), target
2 is passed `500`, and target 3 is passed `500`, not `250`. -/
theorem run_forfeit_on_failure_refuted :
    ¬ ((sizeTrace 1000 [false, true, true]).getD 1 0 = 500 ∧
        ((runDecreasing 1000 [false, true, true]).map
            AllocAttempt.amount).getD 1 0 = 250 ∧
        ((runDecreasing 1000 [false, true, true]).map
            AllocAttempt.amount).getD 2 0 = 250) := by
  decide

/-- C1, amended.  A successful allocation runs
`size -= step_size; targetsLeft -= 1; step_size = size // 2`; a FAILED
allocation updates nothing at all — the except handler's own
`tqdm.write(...)` raises `AttributeError` (the `tqdm` module has no
top-level `write`) and aborts the run with `size` and `step_size`
untouched and no later target attempted.  Concretely, for
`totalBudget = 1000`, `n = 3` with target 1 failing: the failed attempt is
passed `500`, `size` is still `1000` at the crash, and targets 2 and 3 are
never attempted; without the failure the run decrements normally. -/
theorem run_failure_aborts_without_update :
    runDecreasing 1000 [false, true, true] = [⟨500, false, 1000⟩] ∧
      runCompletes 1000 [false, true, true] = false ∧
      sizeTrace 1000 [false, true, true] = [1000, 1000] ∧
      runDecreasing 1000 [true, true, true] =
        [⟨500, true, 500⟩, ⟨250, true, 250⟩, ⟨250, true, 125⟩] := by
  decide

/-- C2: in the decreasing modes with no failures, the amounts passed to
`write_func` are exactly the spec's chunk sequence: `remaining // 2` while
more than one target is left, the full remainder for the last target. -/
theorem run_chunks_follow_spec (budget : Int) (n : Nat) (h : 1 < n) :
    (runDecreasing budget (List.replicate n true)).map AllocAttempt.amount
      = specChunks budget n := by
  obtain ⟨m, rfl⟩ : ∃ m, n = m + 1 := ⟨n - 1, by omega⟩
  have := runLoop_chunks_spec m budget
  simpa [runDecreasing] using this

/-- C2, witness: `totalBudget = 1000`, `n = 3` gives chunks
`500, 250, 250`. -/
theorem run_chunks_follow_spec_witness :
    (1 : Nat) < 3 ∧
      (runDecreasing 1000 (List.replicate 3 true)).map AllocAttempt.amount
        = specChunks 1000 3 ∧
      specChunks 1000 3 = [500, 250, 250] :=
  ⟨by decide, run_chunks_follow_spec 1000 3 (by decide), by decide⟩

/-- C3: a failed allocation attempt leaves the scheduler's `size` variable
exactly where it was: for every iteration the run performs whose
`write_func` call raises, the value of `size` after that iteration equals
the value before it (the exception escapes before `size = size -
step_size`, and the handler itself raises before touching anything). -/
theorem run_failed_target_preserves_size (budget : Int) (outs : List Bool)
    (i : Nat) (h : i < (runDecreasing budget outs).length)
    (hf : ((runDecreasing budget outs).getD i ⟨0, true, 0⟩).ok = false) :
    (sizeTrace budget outs).getD (i + 1) 0
      = (sizeTrace budget outs).getD i 0 := by
  have := runLoop_failed_keeps_size outs
    ⟨budget, Int.fdiv budget 2, outs.length⟩ i h hf
  simpa [sizeTrace, runDecreasing] using this

/-- C3, witness: budget `1000`, target 1 of 3 fails, `size` stays `1000`. -/
theorem run_failed_target_preserves_size_witness :
    (sizeTrace 1000 [false, true, true]).getD 1 0
      = (sizeTrace 1000 [false, true, true]).getD 0 0 :=
  run_failed_target_preserves_size 1000 [false, true, true] 0
    (by decide) (by decide)

/-- C4, counterexample.  A failed target's chunk is never offered to the
next target: with budget `1000` and target 1 of 2 failing, the run ends at
the failed attempt — target 2 (the final target) is never reached, so the
successful allocations sum to `0`, not to the total budget. -/
theorem run_reoffer_sum_refuted :
    runDecreasing 1000 [false, true] = [⟨500, false, 1000⟩] ∧
      allocatedSum (runDecreasing 1000 [false, true]) ≠ 1000 := by
  decide

/-- C4, amended.  If the run reaches and succeeds on the final target —
which, since the first failure aborts the run, happens exactly when every
allocation succeeds — the amounts passed to the (all successful)
`write_func` calls sum to exactly the whole starting budget.  A failed
target's chunk is never offered to a later target: the run aborts at the
first failure. -/
theorem run_total_allocated_on_completion (budget : Int)
    (outs : List Bool) (h : outs ≠ [])
    (hc : runCompletes budget outs = true) :
    allocatedSum (runDecreasing budget outs) = budget := by
  have := runLoop_completed_sum outs
    ⟨budget, Int.fdiv budget 2, outs.length⟩ rfl h hc
  simpa [runDecreasing] using this

/-- C4 amended, witness: budget `1000` over three targets, all successful:
`500 + 250 + 250 = 1000`. -/
theorem run_total_allocated_on_completion_witness :
    allocatedSum (runDecreasing 1000 [true, true, true]) = 1000 :=
  run_total_allocated_on_completion 1000 [true, true, true]
    (by decide) (by decide)

/-- C5, code bug.  The spec's propagation policy (catch, report, continue;
never abort) is clearly the intent of the try/except in `run`, but the
handler's report statement `tqdm.write(...)` names a nonexistent
module-level attribute and raises `AttributeError`, aborting the run at
the first failed target: with budget `1000` and target 1 of 3 failing,
only one attempt is performed and the run does not complete, while the
same run with no failure completes. -/
theorem run_aborts_on_first_failure :
    (runDecreasing 1000 [false, true, true]).length = 1 ∧
      runCompletes 1000 [false, true, true] = false ∧
      runCompletes 1000 [true, true, true] = true := by
  decide

/-- C6: for a nonnegative starting budget, the successive values of the
scheduler's `size` variable are non-increasing and never negative, under
every pattern of successes and failures. -/
theorem run_budget_monotone_nonneg (budget : Int) (outs : List Bool)
    (h : 0 ≤ budget) :
    List.Chain' (fun a b => b ≤ a) (sizeTrace budget outs) ∧
      ∀ x ∈ sizeTrace budget outs, 0 ≤ x := by
  have := runLoop_size_chain outs
    ⟨budget, Int.fdiv budget 2, outs.length⟩ h rfl
  simpa [sizeTrace, runDecreasing] using this

/-- C6, witness: budget `1000` with a mixed success/failure pattern. -/
theorem run_budget_monotone_nonneg_witness :
    List.Chain' (fun a b => b ≤ a)
        (sizeTrace 1000 [true, false, true, true]) ∧
      ∀ x ∈ sizeTrace 1000 [true, false, true, true], 0 ≤ x :=
  run_budget_monotone_nonneg 1000 [true, false, true, true] (by decide)

/-- C7: the valid-data-extend strategy is observationally independent of
whether the privileged `SetFileValidData` call succeeds: for both Windows
allocators the two outcomes give identical results, and any completed call
leaves a file of exactly the requested apparent size (`size` for
`fastwrite_on_windows`, `current + add` for `adjust_file_size_windows`). -/
theorem windows_alloc_size_independent_of_svd (size current add : Int)
    (b b' : Bool) :
    fastwrite_on_windows size b = fastwrite_on_windows size b' ∧
    (∀ r, fastwrite_on_windows size b = some r → r = size) ∧
    adjust_file_size_windows current add b
      = adjust_file_size_windows current add b' ∧
    (∀ r, adjust_file_size_windows current add b = some r →
      r = current + add) := by
  have hfw : ∀ c : Bool, fastwrite_on_windows size c =
      if size - 1 < 0 then none else some size := by
    intro c
    by_cases h : size - 1 < 0
    · simp [fastwrite_on_windows, h]
    · cases c with
      | false => simp [fastwrite_on_windows, h]
      | true =>
        simp [fastwrite_on_windows, h]
        omega
  have hadj : ∀ c : Bool, adjust_file_size_windows current add c =
      if current + add < 0 then none else some (current + add) := by
    intro c; rfl
  refine ⟨by rw [hfw b, hfw b'], ?_, by rw [hadj b, hadj b'], ?_⟩
  · intro r hr
    rw [hfw b] at hr
    by_cases h : size - 1 < 0
    · rw [if_pos h] at hr; exact absurd hr (by simp)
    · rw [if_neg h] at hr; exact (Option.some.inj hr).symm
  · intro r hr
    rw [hadj b] at hr
    by_cases h : current + add < 0
    · rw [if_pos h] at hr; exact absurd hr (by simp)
    · rw [if_neg h] at hr; exact (Option.some.inj hr).symm

/-- C7, witness: requested size `7`, and extension of a 3-byte file by 4. -/
theorem windows_alloc_size_independent_of_svd_witness :
    fastwrite_on_windows 7 true = fastwrite_on_windows 7 false ∧
      (7 : Int) = 7 ∧ (7 : Int) = 3 + 4 :=
  ⟨(windows_alloc_size_independent_of_svd 7 3 4 true false).1,
    (windows_alloc_size_independent_of_svd 7 3 4 true false).2.1 7
      (by decide),
    (windows_alloc_size_independent_of_svd 7 3 4 true false).2.2.2 7
      (by decide)⟩

/-- C8, counterexample.  The claim asserts the unsupported-primitive
fallback (seek to `newSize - 1`, write one zero byte) also in the
create-new-file path, but `fastwrite_on_linux` calls `posix_fallocate` with
no `try`/`except`: with the primitive unsupported it raises instead of
producing the 10-byte file the fallback would produce. -/
theorem fastwrite_linux_no_fallback_refuted :
    fastwrite_on_linux 10 false = none ∧
      fastwrite_on_linux 10 false ≠ some 10 := by
  decide

/-- C8, amended.  `extend_file_size_linux` computes
`newSize = currentSize + byteSize`, requests allocation of `[0, newSize)`,
and on an unsupported primitive falls back to seeking to `newSize - 1` and
writing a single zero byte (both paths give a `newSize`-byte file); the
create-new-file path `fastwrite_on_linux` has no such fallback — an
unsupported primitive propagates as an error. -/
theorem sparse_extend_fallback_extend_only (current add size : Int)
    (h0 : 0 ≤ add) (h1 : 0 < current + add) :
    extend_file_size_linux current add true = some (current + add) ∧
    extend_file_size_linux current add false = some (current + add) ∧
    fastwrite_on_linux size false = none := by
  have hmax : max current (current + add) = current + add := by omega
  refine ⟨?_, ?_, rfl⟩
  · have hc : ¬ (current + add ≤ 0) := by omega
    simp [extend_file_size_linux, hc, hmax]
  · have hc : ¬ (current + add - 1 < 0) := by omega
    simp [extend_file_size_linux, hc]
    omega

/-- C8 amended, witness: extending a 5-byte file by 7 bytes gives a 12-byte
file on both the fallocate path and the fallback path; the create path with
the primitive unsupported errors out. -/
theorem sparse_extend_fallback_extend_only_witness :
    extend_file_size_linux 5 7 true = some 12 ∧
      extend_file_size_linux 5 7 false = some 12 ∧
      fastwrite_on_linux 10 false = none := by
  have h := sparse_extend_fallback_extend_only 5 7 10 (by decide) (by decide)
  simpa using h

/-- C9: `walk_path` returns a finite list holding exactly the writable
entries reachable from the root: in directories mode the write-accessible
directories visited by the depth-first pre-order walk, in files mode the
writable regular files of those directories — and never a non-writable
entry. -/
theorem walk_path_exactly_writable_reachable (root d : FSDir)
    (f : String × Bool) :
    (d ∈ walk_path_dirs root ↔ Reachable root d ∧ d.writable = true) ∧
    (f ∈ walk_path_files root ↔
      (∃ p, Reachable root p ∧ f ∈ p.files) ∧ f.2 = true) := by
  constructor
  · rw [walk_path_dirs, List.mem_filter, mem_osWalk_iff]
  · rw [walk_path_files]
    simp only [List.mem_flatten, List.mem_map]
    constructor
    · rintro ⟨l, ⟨p, hp, rfl⟩, hf⟩
      rw [List.mem_filter] at hf
      exact ⟨⟨p, (mem_osWalk_iff root p).mp hp, hf.1⟩, hf.2⟩
    · rintro ⟨⟨p, hp, hf⟩, hw⟩
      exact ⟨p.files.filter (fun f => f.2),
        ⟨p, (mem_osWalk_iff root p).mpr hp, rfl⟩,
        List.mem_filter.mpr ⟨hf, hw⟩⟩

/-- C10: with a resulting size of zero — which the spec's precondition
`byteSize ≥ 0` permits — the creation-time paths raise (they seek to
offset `-1`) instead of producing an empty file, and whenever they do
complete the resulting file holds at least one byte. -/
theorem zero_size_creation_raises (size current add : Int) (b : Bool) :
    fastwrite_on_windows 0 b = none ∧
    (current + add = 0 → extend_file_size_linux current add false = none) ∧
    (∀ r, fastwrite_on_windows size b = some r → 1 ≤ r) ∧
    (∀ r, extend_file_size_linux current add false = some r → 1 ≤ r) := by
  refine ⟨?_, ?_, ?_, ?_⟩
  · have h : ((0 : Int) - 1 < 0) := by decide
    cases b <;> simp [fastwrite_on_windows, h]
  · intro hz
    have h : current + add - 1 < 0 := by omega
    simp [extend_file_size_linux, h]
  · intro r hr
    by_cases h : size - 1 < 0
    · simp [fastwrite_on_windows, h] at hr
    · cases b <;> simp [fastwrite_on_windows, h] at hr <;> omega
  · intro r hr
    by_cases h : current + add - 1 < 0
    · simp [extend_file_size_linux, h] at hr
    · simp [extend_file_size_linux, h] at hr
      omega

/-- C10, witness: requested size `0` raises on both paths; a completed
5-byte creation yields at least one byte. -/
theorem zero_size_creation_raises_witness :
    fastwrite_on_windows 0 true = none ∧
      extend_file_size_linux 0 0 false = none ∧ (1 : Int) ≤ 5 :=
  ⟨(zero_size_creation_raises 5 0 0 true).1,
    (zero_size_creation_raises 5 0 0 true).2.1 (by decide),
    (zero_size_creation_raises 5 0 0 true).2.2.1 5 (by decide)⟩

end Fulldisk
